import Mathlib

/-!
Shallow embedding of the bounded blocking thread-ID pool from `queue.cpp`
(`ThreadIDPool` and the pthread wrapper functions), together with proofs of
the specified properties of the pool.

Modelling conventions:
* The C `int` identifiers are modelled as `Int`.
* The `std::list<int> indexList` is a `List Int`; `push_back` appends,
  `front`/`pop_front` read and drop the head.
* `getIndexBlocking` blocks while the list is empty; as a state transformer it
  returns `none` when it would block (no identifier is handed out) and
  `some (value, rest)` when it completes.
* The pthread wrappers call `DIE` (print and `exit(1)`) on a nonzero return
  code `e`; process termination is modelled as `Except.error`, normal return
  as `Except.ok ()`.  The return code of the underlying pthread call is an
  input of the model.
-/

/-- Model of the `DIE(...)` macro: print the error and `exit(1)`.  The process
terminates, so the caller never resumes: `Except.error`. -/
def DIE (msg : String) : Except String Unit := Except.error msg

/-- `MutexInit`: `pthread_mutex_init` returned `e`; nonzero `e` is fatal. -/
def MutexInit (e : Int) : Except String Unit :=
  if e ≠ 0 then DIE ("pthread_mutex_init returned " ++ toString e)
  else Except.ok ()

/-- `MutexDestroy`: `pthread_mutex_destroy` returned `e`. -/
def MutexDestroy (e : Int) : Except String Unit :=
  if e ≠ 0 then DIE ("pthread_mutex_destroy returned " ++ toString e)
  else Except.ok ()

/-- `MutexLock`: `pthread_mutex_lock` returned `e`. -/
def MutexLock (e : Int) : Except String Unit :=
  if e ≠ 0 then DIE ("pthread_mutex_lock returned " ++ toString e)
  else Except.ok ()

/-- `MutexUnlock`: `pthread_mutex_unlock` returned `e`. -/
def MutexUnlock (e : Int) : Except String Unit :=
  if e ≠ 0 then DIE ("pthread_mutex_unlock returned " ++ toString e)
  else Except.ok ()

/-- `CondInit`: `pthread_cond_init` returned `e`. -/
def CondInit (e : Int) : Except String Unit :=
  if e ≠ 0 then DIE ("pthread_cond_init returned " ++ toString e)
  else Except.ok ()

/-- `CondDestroy`: `pthread_cond_destroy` returned `e`. -/
def CondDestroy (e : Int) : Except String Unit :=
  if e ≠ 0 then DIE ("pthread_cond_destroy returned " ++ toString e)
  else Except.ok ()

/-- `CondSignal`: `pthread_cond_signal` returned `e`. -/
def CondSignal (e : Int) : Except String Unit :=
  if e ≠ 0 then DIE ("pthread_cond_signal returned " ++ toString e)
  else Except.ok ()

/-- `CondWait`: `pthread_cond_wait` returned `e`. -/
def CondWait (e : Int) : Except String Unit :=
  if e ≠ 0 then DIE ("pthread_cond_wait returned " ++ toString e)
  else Except.ok ()

namespace ThreadIDPool

/-- Model of `std::list::clear()`: the list is emptied. -/
def listClear (_l : List Int) : List Int := []

/-- `ThreadIDPool::initializePool(n_thread)`: `indexList.clear();` then
`for (int i = 0; i < n_thread; i++) indexList.push_back(i);`.  The loop pushes
`0, 1, …, n_thread - 1` in order (and nothing when `n_thread ≤ 0`). -/
def initializePool (indexList : List Int) (n_thread : Int) : List Int :=
  listClear indexList ++ (List.range n_thread.toNat).map (fun i : Nat => (i : Int))

/-- `ThreadIDPool::getIndexBlocking()`: wait while `indexList.empty()`, then
`value = indexList.front(); indexList.pop_front();` and return `value`.
`none` means the call blocks (the wait loop keeps the caller suspended and the
list is unchanged). -/
def getIndexBlocking (indexList : List Int) : Option (Int × List Int) :=
  match indexList with
  | [] => none
  | value :: rest => some (value, rest)

/-- `ThreadIDPool::returnIndex(i)`: `indexList.push_back(i);` then signal the
condition.  There is no guard of any kind on `i`. -/
def returnIndex (indexList : List Int) (i : Int) : List Int :=
  indexList ++ [i]

/-- The pool state visible to the specification: the available identifiers
(`indexList`, the code's FIFO queue, front first) together with the
identifiers currently checked out by callers (newest first). -/
structure PoolState where
  indexList : List Int
  checkedOut : List Int
deriving DecidableEq

/-- One operation of a caller history. -/
inductive Op where
  | acquire : Op
  | release : Int → Op
deriving DecidableEq

/-- One completed operation on the pool.  An acquire completes only when the
available list is nonempty (otherwise the wait loop blocks: `none`); a release
is admitted only for an identifier currently checked out (the caller
discipline of the specification).  The second component is the identifier an
acquire returned, if the operation was an acquire. -/
def step (s : PoolState) (op : Op) : Option (PoolState × Option Int) :=
  match op with
  | Op.acquire =>
    match getIndexBlocking s.indexList with
    | none => none
    | some (value, rest) =>
      some (⟨rest, value :: s.checkedOut⟩, some value)
  | Op.release i =>
    if i ∈ s.checkedOut then
      some (⟨returnIndex s.indexList i, s.checkedOut.erase i⟩, none)
    else none

/-- Run a history of operations from a state. -/
def run (s : PoolState) : List Op → Option PoolState
  | [] => some s
  | op :: ops =>
    match step s op with
    | none => none
    | some (s', _) => run s' ops

/-- Run a history of operations, also collecting the identifiers returned by
the acquire calls, in order. -/
def runOutputs (s : PoolState) : List Op → Option (PoolState × List Int)
  | [] => some (s, [])
  | op :: ops =>
    match step s op with
    | none => none
    | some (s', out) =>
      match runOutputs s' ops with
      | none => none
      | some (t, outs) => some (t, out.toList ++ outs)

/-- The state right after `initializePool` on a fresh pool: every identifier
is available, none is checked out. -/
def initState (n : Int) : PoolState :=
  ⟨initializePool [] n, []⟩

/-- `k` successive (non-blocked) acquire calls: the identifiers returned, in
order.  A call that would block returns nothing and ends the sequence. -/
def acquireMany : Nat → List Int → List Int
  | 0, _ => []
  | Nat.succ k, l =>
    match getIndexBlocking l with
    | none => []
    | some (value, rest) => value :: acquireMany k rest

end ThreadIDPool

open ThreadIDPool

/-- A single `step` preserves the multiset of identifiers split between the
available list and the checked-out identifiers. -/
theorem step_perm (s s' : PoolState) (op : Op) (out : Option Int)
    (h : step s op = some (s', out)) :
    (s'.indexList ++ s'.checkedOut).Perm (s.indexList ++ s.checkedOut) := by
  cases op with
  | acquire =>
    cases hl : s.indexList with
    | nil => simp [step, getIndexBlocking, hl] at h
    | cons value rest =>
      simp [step, getIndexBlocking, hl] at h
      obtain ⟨hs, -⟩ := h
      subst hs
      exact List.perm_middle
  | release i =>
    by_cases hmem : i ∈ s.checkedOut
    · simp [step, hmem] at h
      obtain ⟨hs, -⟩ := h
      subst hs
      show (returnIndex s.indexList i ++ s.checkedOut.erase i).Perm _
      rw [returnIndex, List.append_assoc]
      exact List.Perm.append_left s.indexList
        (List.perm_cons_erase hmem).symm
    · simp [step, hmem] at h

/-- Running any admissible history preserves the multiset of identifiers. -/
theorem run_perm (ops : List Op) :
    ∀ s t : PoolState, run s ops = some t →
      (t.indexList ++ t.checkedOut).Perm (s.indexList ++ s.checkedOut) := by
  induction ops with
  | nil =>
    intro s t h
    simp [run] at h
    subst h
    exact List.Perm.refl _
  | cons op ops ih =>
    intro s t h
    cases hstep : step s op with
    | none => simp [run, hstep] at h
    | some p =>
      obtain ⟨s', out⟩ := p
      rw [run, hstep] at h
      exact (ih s' t h).trans (step_perm s s' op out hstep)

/-- C1 (conservation): for every history of acquire/release operations in
which each release passes an identifier previously acquired and not yet
released, after every operation the multiset of available identifiers
together with the checked-out identifiers is exactly `{0, …, capacity-1}`,
with no identifier duplicated or lost. -/
theorem conservation (n : Int) (ops : List Op) (s : PoolState)
    (h : run (initState n) ops = some s) :
    (s.indexList ++ s.checkedOut).Perm
      ((List.range n.toNat).map (fun i : Nat => (i : Int))) ∧
    (s.indexList ++ s.checkedOut).Nodup := by
  have hp := run_perm ops (initState n) s h
  have hinit : (initState n).indexList ++ (initState n).checkedOut
      = (List.range n.toNat).map (fun i : Nat => (i : Int)) := by
    simp [initState, initializePool, listClear]
  rw [hinit] at hp
  have hnd : ((List.range n.toNat).map (fun i : Nat => (i : Int))).Nodup :=
    (List.nodup_range n.toNat).map (fun a b hab => by exact_mod_cast hab)
  exact ⟨hp, hp.symm.nodup hnd⟩

/-- Witness for C1: capacity 2, history acquire, release 0, acquire, which
ends with identifier 0 available and identifier 1 checked out. -/
theorem conservation_witness :
    ((PoolState.mk [0] [1]).indexList ++ (PoolState.mk [0] [1]).checkedOut).Perm
      ((List.range (2 : Int).toNat).map (fun i : Nat => (i : Int))) ∧
    ((PoolState.mk [0] [1]).indexList ++ (PoolState.mk [0] [1]).checkedOut).Nodup :=
  conservation 2 [Op.acquire, Op.release 0, Op.acquire] ⟨[0], [1]⟩ (by decide)

/-- C2: on a nonempty available list, acquire removes and returns the front
of the FIFO queue, shrinking the list by one; after `initializePool 3` three
acquires return 0, 1, 2 in ascending order. -/
theorem getIndexBlocking_front (value : Int) (rest : List Int) :
    getIndexBlocking (value :: rest) = some (value, rest) ∧
    rest.length = (value :: rest).length - 1 ∧
    runOutputs (initState 3) [Op.acquire, Op.acquire, Op.acquire]
      = some (⟨[], [2, 1, 0]⟩, [0, 1, 2]) :=
  ⟨rfl, rfl, by decide⟩

/-- C3 counterexample: capacity 2 with identifier 1 still available when
identifier 0 is released.  The release of `r1 = 0` followed by one acquire
returns 1 (the older front of the queue), not `r1`: the acquire outputs of
the history are `[0, 1]`, where the claim predicts `[0, 0]`. -/
theorem fifo_counterexample :
    (runOutputs (initState 2) [Op.acquire, Op.release 0, Op.acquire]).map
        Prod.snd = some [0, 1] ∧
    ([0, 1] : List Int) ≠ [0, 0] :=
  ⟨by decide, by decide⟩

/-- C3 (amended): when the available list is empty at the start of the
release sequence (every identifier checked out), releases `r1, …, rk`
followed by `k` acquires return `r1, …, rk` in that order; in particular
after `initializePool 1`, acquire returns 0, then release 0 and a second
acquire returns 0 again. -/
theorem fifo_of_availability :
    (∀ rs : List Int,
      acquireMany rs.length (List.foldl returnIndex [] rs) = rs) ∧
    runOutputs (initState 1) [Op.acquire, Op.release 0, Op.acquire]
      = some (⟨[], [0]⟩, [0, 0]) := by
  constructor
  · have hfold : ∀ (l acc : List Int),
        List.foldl returnIndex acc l = acc ++ l := by
      intro l
      induction l with
      | nil => intro acc; simp
      | cons r l ih => intro acc; simp [returnIndex, ih]
    have hacq : ∀ l : List Int, acquireMany l.length l = l := by
      intro l
      induction l with
      | nil => rfl
      | cons v l ih => simp [acquireMany, getIndexBlocking, ih]
    intro rs
    rw [hfold rs []]
    simpa using hacq rs
  · decide

/-- C4: for positive capacity, `initializePool` makes the available list
contain exactly the identifiers `0 … capacity-1`, each once, in ascending
order, whatever list it held before. -/
theorem initializePool_ascending (prev : List Int) (n : Int) (h : 0 < n) :
    (initializePool prev n).Nodup ∧
    List.Sorted (· < ·) (initializePool prev n) ∧
    ∀ i : Int, i ∈ initializePool prev n ↔ 0 ≤ i ∧ i < n := by
  refine ⟨?_, ?_, ?_⟩
  · simp only [initializePool, listClear, List.nil_append]
    exact (List.nodup_range n.toNat).map (fun a b hab => by exact_mod_cast hab)
  · simp only [initializePool, listClear, List.nil_append]
    exact List.Pairwise.map _ (fun a b hab => by exact_mod_cast hab)
      (List.pairwise_lt_range n.toNat)
  · intro i
    simp only [initializePool, listClear, List.nil_append, List.mem_map,
      List.mem_range]
    constructor
    · rintro ⟨a, ha, rfl⟩
      omega
    · rintro ⟨h0, hn⟩
      exact ⟨i.toNat, by omega, by omega⟩

/-- Witness for C4 at capacity 3, previous list `[7]`. -/
theorem initializePool_ascending_witness :
    (initializePool [7] 3).Nodup ∧
    List.Sorted (· < ·) (initializePool [7] 3) ∧
    ∀ i : Int, i ∈ initializePool [7] 3 ↔ 0 ≤ i ∧ i < 3 :=
  initializePool_ascending [7] 3 (by decide)

/-- C5: an acquire step completes (hands out an identifier) only from a
state whose available list is nonempty — the wait-while-empty loop blocks
otherwise — and the identifier handed out is the head of that list. -/
theorem acquire_only_when_available (s s' : PoolState) (r : Option Int)
    (h : step s Op.acquire = some (s', r)) :
    s.indexList ≠ [] ∧ r = s.indexList.head? := by
  cases hl : s.indexList with
  | nil => simp [step, getIndexBlocking, hl] at h
  | cons v rest =>
    simp [step, getIndexBlocking, hl] at h
    exact ⟨by simp, by simp [← h.2]⟩

/-- Witness for C5: the acquire step from available list `[5]`. -/
theorem acquire_only_when_available_witness :
    (PoolState.mk [5] []).indexList ≠ [] ∧
    (some 5 : Option Int) = (PoolState.mk [5] []).indexList.head? :=
  acquire_only_when_available ⟨[5], []⟩ ⟨[], [5]⟩ (some 5) (by decide)

/-- C6 counterexample: releasing the out-of-range, never-checked-out
identifier 5 on a freshly initialized capacity-1 pool raises no assertion or
error — `returnIndex` returns normally and the available list now contains
the invalid identifier 5 alongside 0. -/
theorem returnIndex_no_guard_counterexample :
    returnIndex (initializePool [] 1) 5 = [0, 5] ∧
    (5 : Int) ∈ returnIndex (initializePool [] 1) 5 ∧
    ¬ ((5 : Int) < 1) :=
  ⟨by decide, by decide, by decide⟩

/-- C6 (amended): `returnIndex` performs no validation whatsoever: for every
list state and every identifier, including out-of-range or already-present
ones, it silently appends the identifier at the back and keeps every element
that was already present. -/
theorem returnIndex_no_guard (l : List Int) (i : Int) :
    returnIndex l i = l ++ [i] ∧ i ∈ returnIndex l i ∧
    ∀ x ∈ l, x ∈ returnIndex l i := by
  refine ⟨rfl, by simp [returnIndex], ?_⟩
  intro x hx
  simp [returnIndex, hx]

/-- C7: every synchronization wrapper that receives a nonzero return code
from its underlying pthread operation reports the error and terminates the
process through `DIE`; on the error branch control never returns to the
caller (`Except.error`, never `Except.ok`). -/
theorem sync_failure_fatal (e : Int) (h : e ≠ 0) :
    (∃ m, MutexInit e = Except.error m) ∧
    (∃ m, MutexDestroy e = Except.error m) ∧
    (∃ m, MutexLock e = Except.error m) ∧
    (∃ m, MutexUnlock e = Except.error m) ∧
    (∃ m, CondInit e = Except.error m) ∧
    (∃ m, CondDestroy e = Except.error m) ∧
    (∃ m, CondSignal e = Except.error m) ∧
    (∃ m, CondWait e = Except.error m) :=
  ⟨⟨"pthread_mutex_init returned " ++ toString e, by simp [MutexInit, DIE, h]⟩,
   ⟨"pthread_mutex_destroy returned " ++ toString e, by simp [MutexDestroy, DIE, h]⟩,
   ⟨"pthread_mutex_lock returned " ++ toString e, by simp [MutexLock, DIE, h]⟩,
   ⟨"pthread_mutex_unlock returned " ++ toString e, by simp [MutexUnlock, DIE, h]⟩,
   ⟨"pthread_cond_init returned " ++ toString e, by simp [CondInit, DIE, h]⟩,
   ⟨"pthread_cond_destroy returned " ++ toString e, by simp [CondDestroy, DIE, h]⟩,
   ⟨"pthread_cond_signal returned " ++ toString e, by simp [CondSignal, DIE, h]⟩,
   ⟨"pthread_cond_wait returned " ++ toString e, by simp [CondWait, DIE, h]⟩⟩

/-- Witness for C7 at the concrete nonzero return code 22 (EINVAL). -/
theorem sync_failure_fatal_witness :
    (∃ m, MutexInit 22 = Except.error m) ∧
    (∃ m, MutexDestroy 22 = Except.error m) ∧
    (∃ m, MutexLock 22 = Except.error m) ∧
    (∃ m, MutexUnlock 22 = Except.error m) ∧
    (∃ m, CondInit 22 = Except.error m) ∧
    (∃ m, CondDestroy 22 = Except.error m) ∧
    (∃ m, CondSignal 22 = Except.error m) ∧
    (∃ m, CondWait 22 = Except.error m) :=
  sync_failure_fatal 22 (by decide)

/-- C8: for every nonpositive capacity, `initializePool` completes normally
with an empty available list (the fill loop never executes, no validation
error is raised), and a subsequent acquire finds the pool empty and blocks
(the step yields no completion). -/
theorem initializePool_nonpositive (prev : List Int) (n : Int) (h : n ≤ 0) :
    initializePool prev n = [] ∧
    step ⟨initializePool prev n, []⟩ Op.acquire = none := by
  have ht : n.toNat = 0 := by omega
  constructor
  · simp [initializePool, listClear, ht]
  · simp [initializePool, listClear, ht, step, getIndexBlocking]

/-- Witness for C8 at capacity -5 with previous list `[3]`. -/
theorem initializePool_nonpositive_witness :
    initializePool [3] (-5) = [] ∧
    step ⟨initializePool [3] (-5), []⟩ Op.acquire = none :=
  initializePool_nonpositive [3] (-5) (by decide)

/-- C9: `initializePool` clears the list before refilling it, so its result
is identical for every prior list state (including partially drained or
corrupted ones) and always equals the canonical ascending fill. -/
theorem initializePool_history_free (prev₁ prev₂ : List Int) (n : Int) :
    initializePool prev₁ n = initializePool prev₂ n ∧
    initializePool prev₁ n
      = (List.range n.toNat).map (fun i : Nat => (i : Int)) :=
  ⟨rfl, by simp [initializePool, listClear]⟩

/-- C10: `returnIndex` succeeds on every identifier and every list state,
appends the identifier at the back, grows the length by exactly one, and
leaves the previously present elements and their relative order unchanged
(the old list is the prefix of the new one). -/
theorem returnIndex_total (indexList : List Int) (i : Int) :
    returnIndex indexList i = indexList ++ [i] ∧
    (returnIndex indexList i).length = indexList.length + 1 ∧
    (returnIndex indexList i).take indexList.length = indexList :=
  ⟨rfl, by simp [returnIndex], by simp [returnIndex, List.take_left]⟩
